import Mathlib

/-!
Shallow embedding of the first-person controller of `onion2k/fps`
(`src/game/controls/PlayerController.tsx`) and of the scenery placement
algorithm (`src/game/scene/SceneryCluster.tsx`), with theorems checking the
repository specification against the code.

Conventions:
* Scalars that the source only adds and compares (jump gating, timers) are
  modelled over `ℚ`, keeping the embedding executable and decidable.
* Scalars fed to trigonometric / exponential functions (movement, look
  angles, sway) are modelled over `ℝ`.
-/

namespace FPS

/-! ## Keyboard input state (PlayerController.tsx lines 32-38, 104-157) -/

/-- Mirror of the module-level `keyState` record. -/
structure KeyState where
  forward : Bool
  backward : Bool
  left : Bool
  right : Bool
  jump : Bool
deriving DecidableEq, Repr

/-- The physical key codes the handlers switch on; `other` stands for any
unrecognized code (ignored by the handlers). -/
inductive KeyCode where
  | keyW
  | keyS
  | keyA
  | keyD
  | space
  | other
deriving DecidableEq, Repr

/-- Controller state relevant to jumping: the shared `keyState` record plus
the `jumpRequested` ref. -/
structure CtrlState where
  keys : KeyState
  jumpRequested : Bool
deriving DecidableEq, Repr

/-- `onKeyDown` (lines 105-127): repeats are ignored; `Space` sets both the
`jump` key flag and the `jumpRequested` ref. -/
def onKeyDown (code : KeyCode) (isRepeat : Bool) (s : CtrlState) : CtrlState :=
  if isRepeat then s
  else
    match code with
    | KeyCode.keyW => { s with keys := { s.keys with forward := true } }
    | KeyCode.keyS => { s with keys := { s.keys with backward := true } }
    | KeyCode.keyA => { s with keys := { s.keys with left := true } }
    | KeyCode.keyD => { s with keys := { s.keys with right := true } }
    | KeyCode.space =>
        { s with keys := { s.keys with jump := true }, jumpRequested := true }
    | KeyCode.other => s

/-- `onKeyUp` (lines 129-149): clears the held-key flag; it does not touch
`jumpRequested`. -/
def onKeyUp (code : KeyCode) (s : CtrlState) : CtrlState :=
  match code with
  | KeyCode.keyW => { s with keys := { s.keys with forward := false } }
  | KeyCode.keyS => { s with keys := { s.keys with backward := false } }
  | KeyCode.keyA => { s with keys := { s.keys with left := false } }
  | KeyCode.keyD => { s with keys := { s.keys with right := false } }
  | KeyCode.space => { s with keys := { s.keys with jump := false } }
  | KeyCode.other => s

/-- Vertical-speed threshold `0.2` of the jump gate (line 272). -/
def jumpVelThreshold : ℚ := 1 / 5

/-- Magnitude `4.5` of the jump impulse (`JUMP_IMPULSE`, line 22), as a
rational for the executable jump model. -/
def JUMP_IMPULSE_Q : ℚ := 9 / 2

/-- `Math.abs`, executably, on rationals. -/
def absQ (q : ℚ) : ℚ := if q < 0 then -q else q

theorem absQ_eq_abs (q : ℚ) : absQ q = |q| := by
  unfold absQ
  rcases lt_or_ge q 0 with h | h
  · rw [if_pos h, abs_of_neg h]
  · rw [if_neg (not_lt.mpr h), abs_of_nonneg h]

/-- The jump gate of the `useFrame` callback (line 272): the impulse fires
iff a jump request is pending, the contact count is positive, and the
vertical velocity read at the start of the frame is small. -/
def jumpFires (s : CtrlState) (contacts : Nat) (vy : ℚ) : Bool :=
  s.jumpRequested && decide (0 < contacts) && decide (absQ vy < jumpVelThreshold)

/-- The impulse applied by the frame (lines 272-274): `(0, 4.5, 0)` when the
gate fires, nothing otherwise. -/
def frameImpulse (s : CtrlState) (contacts : Nat) (vy : ℚ) : ℚ × ℚ × ℚ :=
  if jumpFires s contacts vy then (0, JUMP_IMPULSE_Q, 0) else (0, 0, 0)

/-- Events that touch the jump-relevant state: key events and rendered
frames.  A frame carries the contact count and the vertical velocity the
callback reads at its start. -/
inductive ControllerEvent where
  | keyDown (code : KeyCode) (isRepeat : Bool)
  | keyUp (code : KeyCode)
  | frame (contacts : Nat) (vy : ℚ)

/-- State transition for one event.  A frame clears `jumpRequested`
unconditionally (line 275). -/
def stepEvent (s : CtrlState) : ControllerEvent → CtrlState
  | ControllerEvent.keyDown code isRepeat => onKeyDown code isRepeat s
  | ControllerEvent.keyUp code => onKeyUp code s
  | ControllerEvent.frame _ _ => { s with jumpRequested := false }

/-- Whether processing this event applies the jump impulse. -/
def firesAt (s : CtrlState) : ControllerEvent → Bool
  | ControllerEvent.frame contacts vy => jumpFires s contacts vy
  | _ => false

/-- Number of jump impulses applied while processing an event sequence. -/
def firedCount (s : CtrlState) : List ControllerEvent → Nat
  | [] => 0
  | e :: es => (if firesAt s e then 1 else 0) + firedCount (stepEvent s e) es

/-- Number of non-repeat `Space` key-down events in a sequence. -/
def spaceDownCount : List ControllerEvent → Nat
  | [] => 0
  | ControllerEvent.keyDown KeyCode.space false :: es => 1 + spaceDownCount es
  | _ :: es => spaceDownCount es

/-- The impulse count is bounded by the number of non-repeat `Space`
key-downs, plus one for an initially pending request. -/
theorem firedCount_le (es : List ControllerEvent) :
    ∀ s : CtrlState,
      firedCount s es ≤ spaceDownCount es + (if s.jumpRequested then 1 else 0) := by
  induction es with
  | nil => intro s; simp [firedCount]
  | cons e es ih =>
      intro s
      have hstep := ih (stepEvent s e)
      rw [firedCount]
      cases e with
      | keyDown code isRepeat =>
          have hfire : firesAt s (ControllerEvent.keyDown code isRepeat) = false := rfl
          rw [hfire, if_neg Bool.false_ne_true]
          cases isRepeat with
          | true =>
              have hkeep : stepEvent s (ControllerEvent.keyDown code true) = s := by
                simp [stepEvent, onKeyDown]
              rw [hkeep] at hstep
              rw [hkeep]
              have hcnt : spaceDownCount (ControllerEvent.keyDown code true :: es)
                  = spaceDownCount es := by cases code <;> rfl
              omega
          | false =>
              have hcnt : spaceDownCount (ControllerEvent.keyDown code false :: es)
                  = spaceDownCount es + (if code = KeyCode.space then 1 else 0) := by
                cases code <;> simp [spaceDownCount] <;> omega
              have hreq :
                  (if (stepEvent s (ControllerEvent.keyDown code false)).jumpRequested
                      then (1 : ℕ) else 0)
                    ≤ (if s.jumpRequested then 1 else 0)
                      + (if code = KeyCode.space then 1 else 0) := by
                cases code <;> cases hj : s.jumpRequested <;>
                  simp [stepEvent, onKeyDown, hj]
              omega
      | keyUp code =>
          have hfire : firesAt s (ControllerEvent.keyUp code) = false := rfl
          rw [hfire, if_neg Bool.false_ne_true]
          have hreq : (stepEvent s (ControllerEvent.keyUp code)).jumpRequested
              = s.jumpRequested := by cases code <;> rfl
          rw [hreq] at hstep
          have hcnt : spaceDownCount (ControllerEvent.keyUp code :: es)
              = spaceDownCount es := by cases code <;> rfl
          omega
      | frame contacts vy =>
          have hreq :
              (stepEvent s (ControllerEvent.frame contacts vy)).jumpRequested = false := rfl
          rw [hreq] at hstep
          norm_num at hstep
          have hcnt : spaceDownCount (ControllerEvent.frame contacts vy :: es)
              = spaceDownCount es := rfl
          rw [hcnt]
          by_cases hf : firesAt s (ControllerEvent.frame contacts vy) = true
          · rw [if_pos hf]
            have hj : s.jumpRequested = true := by
              have h2 : jumpFires s contacts vy = true := hf
              unfold jumpFires at h2
              exact (Bool.and_eq_true _ _).mp ((Bool.and_eq_true _ _).mp h2).1 |>.1
            rw [hj]
            have hone : (if (true : Bool) = true then (1 : ℕ) else 0) = 1 := rfl
            rw [hone]
            omega
          · rw [if_neg hf]
            omega

/-- C1: per frame the jump impulse of magnitude 4.5 is applied iff the
contact count is positive, the frame-start vertical speed is below 0.2, and
a jump request is pending; the request flag is cleared by every frame; a
repeat `Space` key-down does not raise the flag while a non-repeat one does;
and with at most one non-repeat `Space` key-down in the whole event
sequence, at most one impulse ever fires. -/
theorem jump_gating_sound :
    (∀ (s : CtrlState) (c : Nat) (vy : ℚ),
        firesAt s (ControllerEvent.frame c vy) = true ↔
          (s.jumpRequested = true ∧ 0 < c ∧ |vy| < jumpVelThreshold))
    ∧ (∀ (s : CtrlState) (c : Nat) (vy : ℚ),
        firesAt s (ControllerEvent.frame c vy) = true →
          frameImpulse s c vy = (0, JUMP_IMPULSE_Q, 0))
    ∧ (∀ (s : CtrlState) (c : Nat) (vy : ℚ),
        (stepEvent s (ControllerEvent.frame c vy)).jumpRequested = false)
    ∧ (∀ (s : CtrlState) (r : Bool),
        (stepEvent s (ControllerEvent.keyDown KeyCode.space r)).jumpRequested =
          (if r then s.jumpRequested else true))
    ∧ (∀ (s : CtrlState) (es : List ControllerEvent),
        s.jumpRequested = false → spaceDownCount es ≤ 1 → firedCount s es ≤ 1) := by
  refine ⟨?_, ?_, ?_, ?_, ?_⟩
  · intro s c vy
    show jumpFires s c vy = true ↔ _
    unfold jumpFires
    rw [absQ_eq_abs]
    simp [Bool.and_eq_true, decide_eq_true_eq, and_assoc]
  · intro s c vy h
    have h2 : jumpFires s c vy = true := h
    unfold frameImpulse
    rw [if_pos h2]
  · intro s c vy
    rfl
  · intro s r
    cases r <;> simp [stepEvent, onKeyDown]
  · intro s es hreq hcnt
    have h := firedCount_le es s
    rw [hreq] at h
    norm_num at h
    omega

/-- Concrete run: press Space once (with a key-repeat event and no key-up),
run three frames; exactly the first eligible frame fires. -/
def demoEvents : List ControllerEvent :=
  [ControllerEvent.keyDown KeyCode.space false,
   ControllerEvent.keyDown KeyCode.space true,
   ControllerEvent.frame 1 0,
   ControllerEvent.frame 1 0,
   ControllerEvent.frame 2 (1 / 10)]

/-- Initial controller state: nothing held, no jump pending. -/
def initCtrlState : CtrlState :=
  ⟨⟨false, false, false, false, false⟩, false⟩

/-- Witness for `jump_gating_sound`: the bound holds on the concrete run
`demoEvents`, whose impulse count is exactly 1. -/
theorem jump_gating_sound_witness :
    firedCount initCtrlState demoEvents = 1 ∧
      firedCount initCtrlState demoEvents ≤ 1 :=
  ⟨by norm_num [demoEvents, initCtrlState, firedCount, firesAt, stepEvent, jumpFires,
      onKeyDown, absQ, jumpVelThreshold],
   jump_gating_sound.2.2.2.2 initCtrlState demoEvents rfl (by decide)⟩

/-! ## Movement integrator (PlayerController.tsx lines 18, 223-257) -/

/-- Minimal mirror of `three.Vector3`. -/
@[ext]
structure Vec3 where
  x : ℝ
  y : ℝ
  z : ℝ

noncomputable def Vec3.add (a b : Vec3) : Vec3 := ⟨a.x + b.x, a.y + b.y, a.z + b.z⟩

noncomputable def Vec3.sub (a b : Vec3) : Vec3 := ⟨a.x - b.x, a.y - b.y, a.z - b.z⟩

noncomputable def Vec3.smul (r : ℝ) (a : Vec3) : Vec3 := ⟨r * a.x, r * a.y, r * a.z⟩

noncomputable def Vec3.lengthSq (a : Vec3) : ℝ := a.x * a.x + a.y * a.y + a.z * a.z

noncomputable def Vec3.length (a : Vec3) : ℝ := Real.sqrt a.lengthSq

/-- `three.Vector3.normalize` divides by `length() || 1`. -/
noncomputable def Vec3.normalize (a : Vec3) : Vec3 :=
  Vec3.smul (1 / (if a.length = 0 then 1 else a.length)) a

/-- `applyEuler` with euler `(0, yaw, 0)`: rotation about the world Y axis. -/
noncomputable def rotY (theta : ℝ) (v : Vec3) : Vec3 :=
  ⟨Real.cos theta * v.x + Real.sin theta * v.z,
    v.y,
    -Real.sin theta * v.x + Real.cos theta * v.z⟩

/-- `MOVE_SPEED` (line 18). -/
noncomputable def MOVE_SPEED : ℝ := 4.5

/-- `JUMP_IMPULSE` (line 22) over the reals. -/
noncomputable def JUMP_IMPULSE : ℝ := 4.5

/-- `frontVector.set(0, 0, -1).applyEuler(yawEuler)` (line 234). -/
noncomputable def frontVector (yaw : ℝ) : Vec3 := rotY yaw ⟨0, 0, -1⟩

/-- `sideVector.set(-1, 0, 0).applyEuler(yawEuler)` (line 235). -/
noncomputable def sideVector (yaw : ℝ) : Vec3 := rotY yaw ⟨-1, 0, 0⟩

/-- The desired-direction accumulation (lines 237-241). -/
noncomputable def moveDirection (k : KeyState) (yaw : ℝ) : Vec3 :=
  let d0 : Vec3 := ⟨0, 0, 0⟩
  let d1 := if k.forward then d0.add (frontVector yaw) else d0
  let d2 := if k.backward then d1.sub (frontVector yaw) else d1
  let d3 := if k.left then d2.add (sideVector yaw) else d2
  let d4 := if k.right then d3.sub (sideVector yaw) else d3
  d4

/-- Normalize-and-scale (lines 243-247): if the direction is nonzero it is
normalized and scaled by `MOVE_SPEED`, otherwise left as the zero vector. -/
noncomputable def desiredVelocity (k : KeyState) (yaw : ℝ) : Vec3 :=
  let d := moveDirection k yaw
  if 0 < d.lengthSq then Vec3.smul MOVE_SPEED d.normalize else d

/-- The `setLinvel` write (lines 249-257): horizontal components from the
desired velocity, vertical component copied from the frame-start velocity. -/
noncomputable def writtenVelocity (k : KeyState) (yaw : ℝ) (current : Vec3) : Vec3 :=
  let d := desiredVelocity k yaw
  ⟨d.x, current.y, d.z⟩

noncomputable def boolToReal (b : Bool) : ℝ := if b then 1 else 0

/-- Closed form of the direction accumulation: with `a` the forward/backward
axis and `b` the left/right axis, the direction is `a • front + b • side`. -/
theorem moveDirection_eq (k : KeyState) (yaw : ℝ) :
    moveDirection k yaw =
      ⟨-(boolToReal k.forward - boolToReal k.backward) * Real.sin yaw
          - (boolToReal k.left - boolToReal k.right) * Real.cos yaw,
        0,
        -(boolToReal k.forward - boolToReal k.backward) * Real.cos yaw
          + (boolToReal k.left - boolToReal k.right) * Real.sin yaw⟩ := by
  cases hf : k.forward <;> cases hb : k.backward <;>
    cases hl : k.left <;> cases hr : k.right <;>
      (apply Vec3.ext <;>
        simp [moveDirection, frontVector, sideVector, rotY, Vec3.add, Vec3.sub,
          boolToReal, hf, hb, hl, hr] <;> ring)

theorem moveDirection_lengthSq (k : KeyState) (yaw : ℝ) :
    (moveDirection k yaw).lengthSq =
      (boolToReal k.forward - boolToReal k.backward) ^ 2
        + (boolToReal k.left - boolToReal k.right) ^ 2 := by
  rw [moveDirection_eq]
  unfold Vec3.lengthSq
  simp only
  linear_combination
    (((boolToReal k.forward - boolToReal k.backward) ^ 2
        + (boolToReal k.left - boolToReal k.right) ^ 2)) *
      Real.sin_sq_add_cos_sq yaw

/-- Keys held: only `KeyA` (left). -/
def leftOnly : KeyState := ⟨false, false, true, false, false⟩

/-- Keys held: only `KeyW` (forward). -/
def forwardOnly : KeyState := ⟨true, false, false, false, false⟩

/-- No keys held. -/
def noKeys : KeyState := ⟨false, false, false, false, false⟩

/-- Evaluation helper: when the accumulated direction is a concrete unit
vector, the written velocity is that vector scaled by `MOVE_SPEED`, with the
vertical component copied from the current velocity. -/
theorem writtenVelocity_eval (k : KeyState) (yaw : ℝ) (v : Vec3) (d : Vec3)
    (hd : moveDirection k yaw = d) (hL : d.lengthSq = 1) :
    writtenVelocity k yaw v = ⟨MOVE_SPEED * d.x, v.y, MOVE_SPEED * d.z⟩ := by
  have hpos : 0 < (moveDirection k yaw).lengthSq := by rw [hd, hL]; norm_num
  have hlen : (moveDirection k yaw).length = 1 := by
    unfold Vec3.length
    rw [hd, hL]
    exact Real.sqrt_one
  have hnorm : (moveDirection k yaw).normalize = d := by
    unfold Vec3.normalize
    rw [hlen, if_neg one_ne_zero, hd]
    apply Vec3.ext <;> simp [Vec3.smul]
  unfold writtenVelocity desiredVelocity
  simp only
  rw [if_pos hpos, hnorm]
  simp [Vec3.smul]

theorem moveDirection_noKeys (yaw : ℝ) : moveDirection noKeys yaw = ⟨0, 0, 0⟩ := by
  rw [moveDirection_eq]
  apply Vec3.ext <;> simp [boolToReal, noKeys]

theorem writtenVelocity_noKeys (yaw : ℝ) (v : Vec3) :
    writtenVelocity noKeys yaw v = ⟨0, v.y, 0⟩ := by
  have hL : (moveDirection noKeys yaw).lengthSq = 0 := by
    rw [moveDirection_noKeys]
    simp [Vec3.lengthSq]
  unfold writtenVelocity desiredVelocity
  simp only
  rw [if_neg (by rw [hL]; exact lt_irrefl 0), moveDirection_noKeys]

theorem moveDirection_leftOnly : moveDirection leftOnly 0 = ⟨-1, 0, 0⟩ := by
  rw [moveDirection_eq]
  apply Vec3.ext <;> simp [boolToReal, leftOnly]

theorem moveDirection_forwardOnly : moveDirection forwardOnly 0 = ⟨0, 0, -1⟩ := by
  rw [moveDirection_eq]
  apply Vec3.ext <;> simp [boolToReal, forwardOnly]

/-- C2 counterexample: holding only the left key at yaw 0 writes horizontal
velocity `(-4.5, 0)`, along world −X, not along the world-right +X axis
claimed by the spec. -/
theorem side_axis_counterexample :
    writtenVelocity leftOnly 0 ⟨0, 0, 0⟩ = ⟨-MOVE_SPEED, 0, 0⟩
      ∧ (writtenVelocity leftOnly 0 ⟨0, 0, 0⟩).x ≠ MOVE_SPEED
      ∧ sideVector 0 ≠ rotY 0 ⟨1, 0, 0⟩ := by
  have h : writtenVelocity leftOnly 0 ⟨0, 0, 0⟩ = ⟨-MOVE_SPEED, 0, 0⟩ := by
    rw [writtenVelocity_eval leftOnly 0 ⟨0, 0, 0⟩ ⟨-1, 0, 0⟩ moveDirection_leftOnly
      (by simp [Vec3.lengthSq])]
    apply Vec3.ext <;> simp
  refine ⟨h, ?_, ?_⟩
  · rw [h]
    simp only
    norm_num [MOVE_SPEED]
  · intro hcontra
    have h1 : (sideVector 0).x = -1 := by simp [sideVector, rotY]
    have h2 : (rotY 0 ⟨1, 0, 0⟩).x = 1 := by simp [rotY]
    rw [hcontra, h2] at h1
    norm_num at h1

/-- C2 (amended): the front vector rotates world-forward `(0,0,-1)` by yaw
and the side vector rotates `(-1,0,0)` — the negation of the world-right
axis — by yaw; forward adds the front vector, backward subtracts it, left
adds the side vector, right subtracts it; holding only the left key at yaw 0
writes a horizontal velocity of magnitude 4.5 along world −X. -/
theorem movement_vectors_amended :
    (∀ yaw : ℝ, frontVector yaw = rotY yaw ⟨0, 0, -1⟩)
    ∧ (∀ yaw : ℝ, sideVector yaw = rotY yaw ⟨-1, 0, 0⟩)
    ∧ (∀ (k : KeyState) (yaw : ℝ),
        moveDirection k yaw =
          (Vec3.smul (boolToReal k.forward - boolToReal k.backward)
                (frontVector yaw)).add
            (Vec3.smul (boolToReal k.left - boolToReal k.right) (sideVector yaw)))
    ∧ (∀ v : Vec3, writtenVelocity leftOnly 0 v = ⟨-MOVE_SPEED, v.y, 0⟩) := by
  refine ⟨fun _ => rfl, fun _ => rfl, ?_, ?_⟩
  · intro k yaw
    rw [moveDirection_eq]
    apply Vec3.ext <;>
      simp [Vec3.add, Vec3.smul, frontVector, sideVector, rotY] <;> ring
  · intro v
    rw [writtenVelocity_eval leftOnly 0 v ⟨-1, 0, 0⟩ moveDirection_leftOnly
      (by simp [Vec3.lengthSq])]
    apply Vec3.ext <;> simp

/-- C5: at yaw 0 with only the forward key held, every frame writes
`(0, vy, -4.5)`; the first frame with no movement key held writes
`(0, vy, 0)` — an instant stop. -/
theorem forward_scenario :
    (∀ v : Vec3, writtenVelocity forwardOnly 0 v = ⟨0, v.y, -MOVE_SPEED⟩)
    ∧ (∀ (yaw : ℝ) (v : Vec3), writtenVelocity noKeys yaw v = ⟨0, v.y, 0⟩) := by
  constructor
  · intro v
    rw [writtenVelocity_eval forwardOnly 0 v ⟨0, 0, -1⟩ moveDirection_forwardOnly
      (by simp [Vec3.lengthSq])]
    apply Vec3.ext <;> simp
  · exact writtenVelocity_noKeys

/-- C10: for every key combination, yaw, and current velocity, the written
horizontal velocity has magnitude exactly 0 or exactly `MOVE_SPEED`. -/
theorem written_speed_invariant (k : KeyState) (yaw : ℝ) (v : Vec3) :
    Real.sqrt ((writtenVelocity k yaw v).x ^ 2 + (writtenVelocity k yaw v).z ^ 2) = 0
    ∨ Real.sqrt ((writtenVelocity k yaw v).x ^ 2 + (writtenVelocity k yaw v).z ^ 2)
        = MOVE_SPEED := by
  have hd := moveDirection_eq k yaw
  have hL := moveDirection_lengthSq k yaw
  by_cases hzero : (moveDirection k yaw).lengthSq = 0
  · left
    have hab : (boolToReal k.forward - boolToReal k.backward) ^ 2
        + (boolToReal k.left - boolToReal k.right) ^ 2 = 0 := by rw [← hL, hzero]
    have h1 : (boolToReal k.forward - boolToReal k.backward) ^ 2 = 0 := by
      have := sq_nonneg (boolToReal k.forward - boolToReal k.backward)
      have := sq_nonneg (boolToReal k.left - boolToReal k.right)
      linarith
    have h2 : (boolToReal k.left - boolToReal k.right) ^ 2 = 0 := by
      have := sq_nonneg (boolToReal k.forward - boolToReal k.backward)
      have := sq_nonneg (boolToReal k.left - boolToReal k.right)
      linarith
    have ha0 : boolToReal k.forward - boolToReal k.backward = 0 := sq_eq_zero_iff.mp h1
    have hb0 : boolToReal k.left - boolToReal k.right = 0 := sq_eq_zero_iff.mp h2
    have hdz : moveDirection k yaw = ⟨0, 0, 0⟩ := by
      rw [hd]
      apply Vec3.ext <;> simp only <;> rw [ha0, hb0] <;> ring
    have hdes : desiredVelocity k yaw = ⟨0, 0, 0⟩ := by
      unfold desiredVelocity
      simp only
      rw [if_neg (by rw [hzero]; exact lt_irrefl 0), hdz]
    have hw : writtenVelocity k yaw v = ⟨0, v.y, 0⟩ := by
      unfold writtenVelocity
      rw [hdes]
    rw [hw]
    simp
  · right
    have hnonneg : 0 ≤ (moveDirection k yaw).lengthSq := by
      rw [hL]; positivity
    have hpos : 0 < (moveDirection k yaw).lengthSq :=
      lt_of_le_of_ne hnonneg (Ne.symm hzero)
    have hlenpos : 0 < (moveDirection k yaw).length := Real.sqrt_pos.mpr hpos
    have hlenne : (moveDirection k yaw).length ≠ 0 := ne_of_gt hlenpos
    have hnorm : (moveDirection k yaw).normalize
        = Vec3.smul (1 / (moveDirection k yaw).length) (moveDirection k yaw) := by
      unfold Vec3.normalize
      rw [if_neg hlenne]
    have hy : (moveDirection k yaw).y = 0 := by rw [hd]
    have hxz : (moveDirection k yaw).x ^ 2 + (moveDirection k yaw).z ^ 2
        = (moveDirection k yaw).lengthSq := by
      unfold Vec3.lengthSq
      rw [hy]
      ring
    have hlen2 : (moveDirection k yaw).length ^ 2 = (moveDirection k yaw).lengthSq := by
      unfold Vec3.length
      exact Real.sq_sqrt hnonneg
    have hdes : desiredVelocity k yaw
        = Vec3.smul MOVE_SPEED ((moveDirection k yaw).normalize) := by
      unfold desiredVelocity
      simp only
      rw [if_pos hpos]
    have hwx : (writtenVelocity k yaw v).x
        = MOVE_SPEED * (1 / (moveDirection k yaw).length * (moveDirection k yaw).x) := by
      unfold writtenVelocity
      rw [hdes, hnorm]
      simp [Vec3.smul]
    have hwz : (writtenVelocity k yaw v).z
        = MOVE_SPEED * (1 / (moveDirection k yaw).length * (moveDirection k yaw).z) := by
      unfold writtenVelocity
      rw [hdes, hnorm]
      simp [Vec3.smul]
    have hsq : (writtenVelocity k yaw v).x ^ 2 + (writtenVelocity k yaw v).z ^ 2
        = MOVE_SPEED ^ 2 := by
      rw [hwx, hwz]
      have hexp :
          (MOVE_SPEED * (1 / (moveDirection k yaw).length * (moveDirection k yaw).x)) ^ 2
            + (MOVE_SPEED * (1 / (moveDirection k yaw).length * (moveDirection k yaw).z)) ^ 2
          = MOVE_SPEED ^ 2
            * ((moveDirection k yaw).x ^ 2 + (moveDirection k yaw).z ^ 2)
            / (moveDirection k yaw).length ^ 2 := by
        field_simp
        ring
      rw [hexp, hxz, hlen2, mul_div_assoc, div_self hzero, mul_one]
    rw [hsq]
    exact Real.sqrt_sq (by norm_num [MOVE_SPEED])

/-! ## Full frame velocity effect (write + jump impulse) -/

/-- Per-frame inputs to the velocity update of the `useFrame` callback. -/
structure FrameInput where
  keys : KeyState
  yaw : ℝ
  jumpReq : Bool
  contacts : Nat

/-- Velocity after one frame: the `setLinvel` write (lines 249-257) followed
by the conditional jump impulse (lines 272-274; the body has mass 1, so the
impulse adds `JUMP_IMPULSE` to the vertical velocity). -/
noncomputable def frameVelocity (fi : FrameInput) (v : Vec3) : Vec3 :=
  let w := writtenVelocity fi.keys fi.yaw v
  if fi.jumpReq = true ∧ 0 < fi.contacts ∧ |v.y| < 0.2 then
    ⟨w.x, w.y + JUMP_IMPULSE, w.z⟩
  else w

/-- C4: the `setLinvel` write preserves the vertical velocity for every key
combination, yaw and current velocity; hence any sequence of frames with no
pending jump request leaves the vertical velocity unchanged. -/
theorem vertical_velocity_isolated :
    (∀ (k : KeyState) (yaw : ℝ) (v : Vec3), (writtenVelocity k yaw v).y = v.y)
    ∧ (∀ (fis : List FrameInput) (v : Vec3), (∀ fi ∈ fis, fi.jumpReq = false) →
        (fis.foldl (fun w fi => frameVelocity fi w) v).y = v.y) := by
  constructor
  · intro k yaw v
    rfl
  · intro fis
    induction fis with
    | nil => intro v _; rfl
    | cons fi fis ih =>
        intro v hreq
        have hfi : fi.jumpReq = false := hreq fi (List.mem_cons_self fi fis)
        have hstep : frameVelocity fi v = writtenVelocity fi.keys fi.yaw v := by
          unfold frameVelocity
          rw [if_neg]
          intro hcond
          rw [hfi] at hcond
          exact Bool.false_ne_true hcond.1
        have hrest : ∀ g ∈ fis, g.jumpReq = false := fun g hg =>
          hreq g (List.mem_cons_of_mem fi hg)
        calc ((fi :: fis).foldl (fun w g => frameVelocity g w) v).y
            = (fis.foldl (fun w g => frameVelocity g w) (frameVelocity fi v)).y := rfl
          _ = (frameVelocity fi v).y := ih (frameVelocity fi v) hrest
          _ = v.y := by rw [hstep]; rfl

/-- Two frames of horizontal-only input used by the C4 witness. -/
noncomputable def demoFrames : List FrameInput :=
  [⟨forwardOnly, 0, false, 1⟩, ⟨noKeys, 0, false, 0⟩]

/-- Witness for `vertical_velocity_isolated` on a concrete frame sequence. -/
theorem vertical_velocity_isolated_witness :
    ((demoFrames.foldl (fun w fi => frameVelocity fi w) ⟨1, 2, 3⟩).y : ℝ) = (2 : ℝ) := by
  have h := vertical_velocity_isolated.2 demoFrames ⟨1, 2, 3⟩ (by
    intro fi hfi
    fin_cases hfi <;> rfl)
  rw [h]

/-! ## Mouse look (PlayerController.tsx lines 19, 21, 168-174) -/

/-- `LOOK_SENSITIVITY` (line 19). -/
noncomputable def LOOK_SENSITIVITY : ℝ := 0.0035

/-- `MAX_PITCH` (line 21). -/
noncomputable def MAX_PITCH : ℝ := Real.pi / 2 - 0.05

/-- The yaw/pitch accumulators (`yaw`, `pitch` refs). -/
structure LookState where
  yaw : ℝ
  pitch : ℝ

/-- The clamp of line 173: `Math.max(-MAX_PITCH, Math.min(MAX_PITCH, p))`. -/
noncomputable def clampPitch (p : ℝ) : ℝ := max (-MAX_PITCH) (min MAX_PITCH p)

/-- The per-event pitch increment before clamping (lines 171-172):
`movementY × (invertY ? +LOOK_SENSITIVITY : -LOOK_SENSITIVITY)`. -/
noncomputable def pitchDelta (invertY : Bool) (movementY : ℝ) : ℝ :=
  movementY * (if invertY then LOOK_SENSITIVITY else -LOOK_SENSITIVITY)

/-- `handlePointerMove` (lines 168-174) on a `(movementX, movementY)` pair,
with pointer lock engaged. -/
noncomputable def handlePointerMove (invertY : Bool) (s : LookState) (mv : ℝ × ℝ) :
    LookState :=
  ⟨s.yaw - mv.1 * LOOK_SENSITIVITY, clampPitch (s.pitch + pitchDelta invertY mv.2)⟩

/-- A sequence of pointer-move events. -/
noncomputable def lookRun (invertY : Bool) (s : LookState) (mvs : List (ℝ × ℝ)) :
    LookState :=
  mvs.foldl (handlePointerMove invertY) s

theorem MAX_PITCH_nonneg : 0 ≤ MAX_PITCH := by
  unfold MAX_PITCH
  nlinarith [Real.pi_gt_three]

theorem clampPitch_bounds (p : ℝ) : |clampPitch p| ≤ MAX_PITCH := by
  unfold clampPitch
  rw [abs_le]
  refine ⟨le_max_left _ _, max_le ?_ (min_le_left _ _)⟩
  linarith [MAX_PITCH_nonneg]

theorem lookRun_pitch_bounded (invertY : Bool) (mvs : List (ℝ × ℝ)) :
    ∀ s : LookState, |s.pitch| ≤ MAX_PITCH →
      |(lookRun invertY s mvs).pitch| ≤ MAX_PITCH := by
  induction mvs with
  | nil => intro s h; exact h
  | cons mv mvs ih => intro s _; exact ih _ (clampPitch_bounds _)

theorem lookRun_yaw_closed (invertY : Bool) (mvs : List (ℝ × ℝ)) :
    ∀ s : LookState,
      (lookRun invertY s mvs).yaw = s.yaw - (mvs.map Prod.fst).sum * LOOK_SENSITIVITY := by
  induction mvs with
  | nil => intro s; simp [lookRun]
  | cons mv mvs ih =>
      intro s
      have hstep : lookRun invertY s (mv :: mvs)
          = lookRun invertY (handlePointerMove invertY s mv) mvs := rfl
      rw [hstep, ih]
      unfold handlePointerMove
      simp only [List.map_cons, List.sum_cons]
      ring

/-- C3: starting from pitch 0, after any sequence of pointer-move events the
stored pitch stays within `±MAX_PITCH = ±(π/2 − 0.05)`; yaw is unbounded. -/
theorem pitch_clamp_invariant :
    (∀ (invertY : Bool) (y0 : ℝ) (mvs : List (ℝ × ℝ)),
        -(Real.pi / 2 - 0.05) ≤ (lookRun invertY ⟨y0, 0⟩ mvs).pitch
          ∧ (lookRun invertY ⟨y0, 0⟩ mvs).pitch ≤ Real.pi / 2 - 0.05)
    ∧ (∀ B : ℝ, ∃ mvs : List (ℝ × ℝ), B < (lookRun false ⟨0, 0⟩ mvs).yaw) := by
  constructor
  · intro invertY y0 mvs
    have h0 : |(⟨y0, 0⟩ : LookState).pitch| ≤ MAX_PITCH := by
      simp only [abs_zero]
      exact MAX_PITCH_nonneg
    have h := lookRun_pitch_bounded invertY mvs ⟨y0, 0⟩ h0
    rw [abs_le] at h
    unfold MAX_PITCH at h
    exact ⟨by linarith [h.1], h.2⟩
  · intro B
    refine ⟨[(-((B + 1) / LOOK_SENSITIVITY), 0)], ?_⟩
    have hs : LOOK_SENSITIVITY ≠ 0 := by norm_num [LOOK_SENSITIVITY]
    rw [lookRun_yaw_closed]
    simp only [List.map_cons, List.map_nil, List.sum_cons, List.sum_nil]
    field_simp

/-- C8: for identical pointer-move sequences from the same initial look
state, the per-event pitch deltas with `invertY = true` are the exact
negation of those with `invertY = false`; each event updates pitch by
`movementY × sensitivity × (invertY ? +1 : −1)` and then clamps; yaw updates
are unaffected by `invertY`. -/
theorem invert_y_symmetry :
    (∀ my : ℝ, pitchDelta true my = -pitchDelta false my)
    ∧ (∀ mvs : List (ℝ × ℝ),
        mvs.map (fun mv => pitchDelta true mv.2)
          = (mvs.map (fun mv => pitchDelta false mv.2)).map (fun d => -d))
    ∧ (∀ (invertY : Bool) (s : LookState) (mv : ℝ × ℝ),
        handlePointerMove invertY s mv
          = ⟨s.yaw - mv.1 * LOOK_SENSITIVITY,
              clampPitch (s.pitch + pitchDelta invertY mv.2)⟩)
    ∧ (∀ (s : LookState) (mvs : List (ℝ × ℝ)),
        (lookRun true s mvs).yaw = (lookRun false s mvs).yaw) := by
  have hneg : ∀ my : ℝ, pitchDelta true my = -pitchDelta false my := by
    intro my
    unfold pitchDelta
    simp only [if_pos, if_neg Bool.false_ne_true, if_true]
    ring
  refine ⟨hneg, ?_, fun _ _ _ => rfl, ?_⟩
  · intro mvs
    rw [List.map_map]
    induction mvs with
    | nil => rfl
    | cons mv mvs ih =>
        simp only [List.map_cons, Function.comp_apply, ih]
        rw [hneg]
  · intro s mvs
    rw [lookRun_yaw_closed, lookRun_yaw_closed]

/-! ## Weapon sway (PlayerController.tsx lines 25-26, 259-267) -/

/-- `GUN_SWAY_INTENSITY` (line 25). -/
noncomputable def GUN_SWAY_INTENSITY : ℝ := 0.045

/-- `GUN_SWAY_SMOOTHING` (line 26). -/
noncomputable def GUN_SWAY_SMOOTHING : ℝ := 12

/-- `gunSwayTarget.set(-vx, 0, -vz).multiplyScalar(GUN_SWAY_INTENSITY)`
(line 261). -/
noncomputable def swayTarget (velocity : Vec3) : Vec3 :=
  Vec3.smul GUN_SWAY_INTENSITY ⟨-velocity.x, 0, -velocity.z⟩

/-- `three.Vector3.lerp` on one scalar component. -/
noncomputable def lerpScalar (c t f : ℝ) : ℝ := c + (t - c) * f

/-- One sway update (lines 262-263): lerp factor `1 − e^(−smoothing·Δt)`. -/
noncomputable def swayStep (target : Vec3) (delta : ℝ) (c : Vec3) : Vec3 :=
  let f := 1 - Real.exp (-GUN_SWAY_SMOOTHING * delta)
  ⟨lerpScalar c.x target.x f, lerpScalar c.y target.y f, lerpScalar c.z target.z f⟩

/-- The sway state after a list of frame deltas. -/
noncomputable def swayRun (target : Vec3) (c : Vec3) (ds : List ℝ) : Vec3 :=
  ds.foldl (fun acc d => swayStep target d acc) c

theorem swayRun_closed (t : Vec3) (ds : List ℝ) :
    ∀ c : Vec3,
      swayRun t c ds =
        ⟨t.x + (c.x - t.x) * Real.exp (-GUN_SWAY_SMOOTHING * ds.sum),
          t.y + (c.y - t.y) * Real.exp (-GUN_SWAY_SMOOTHING * ds.sum),
          t.z + (c.z - t.z) * Real.exp (-GUN_SWAY_SMOOTHING * ds.sum)⟩ := by
  induction ds with
  | nil =>
      intro c
      refine Vec3.ext ?_ ?_ ?_ <;> simp [swayRun]
  | cons d ds ih =>
      intro c
      have hstep : swayRun t c (d :: ds) = swayRun t (swayStep t d c) ds := rfl
      rw [hstep, ih]
      have he : Real.exp (-GUN_SWAY_SMOOTHING * d) * Real.exp (-GUN_SWAY_SMOOTHING * ds.sum)
          = Real.exp (-GUN_SWAY_SMOOTHING * (d :: ds).sum) := by
        rw [← Real.exp_add]
        congr 1
        rw [List.sum_cons]
        ring
      refine Vec3.ext ?_ ?_ ?_
      · simp only [swayStep, lerpScalar]
        linear_combination (c.x - t.x) * he
      · simp only [swayStep, lerpScalar]
        linear_combination (c.y - t.y) * he
      · simp only [swayStep, lerpScalar]
        linear_combination (c.z - t.z) * he

/-- C6: the sway target is the negated horizontal velocity scaled by 0.045;
one update moves the sway by `(target − current) × (1 − e^(−12·Δt))`; two
updates with deltas Δt1, Δt2 equal one update with Δt1+Δt2; the closed form
depends only on the total elapsed time; and as total time grows the sway
converges to the target — i.e. to `−velocity × intensity` — for any frame
step. -/
theorem sway_framerate_independent :
    (∀ v : Vec3,
        swayTarget v =
          ⟨-v.x * GUN_SWAY_INTENSITY, 0, -v.z * GUN_SWAY_INTENSITY⟩)
    ∧ (∀ (t : Vec3) (d1 d2 : ℝ) (c : Vec3),
        swayStep t d2 (swayStep t d1 c) = swayStep t (d1 + d2) c)
    ∧ (∀ (t c : Vec3) (ds : List ℝ),
        swayRun t c ds =
          ⟨t.x + (c.x - t.x) * Real.exp (-GUN_SWAY_SMOOTHING * ds.sum),
            t.y + (c.y - t.y) * Real.exp (-GUN_SWAY_SMOOTHING * ds.sum),
            t.z + (c.z - t.z) * Real.exp (-GUN_SWAY_SMOOTHING * ds.sum)⟩)
    ∧ (∀ (v c : Vec3),
        Filter.Tendsto (fun T : ℝ => (swayRun (swayTarget v) c [T]).x)
            Filter.atTop (nhds (swayTarget v).x)
          ∧ Filter.Tendsto (fun T : ℝ => (swayRun (swayTarget v) c [T]).z)
            Filter.atTop (nhds (swayTarget v).z)) := by
  have hexp0 : Filter.Tendsto (fun T : ℝ => Real.exp (-GUN_SWAY_SMOOTHING * T))
      Filter.atTop (nhds 0) := by
    have hlin : Filter.Tendsto (fun T : ℝ => -GUN_SWAY_SMOOTHING * T)
        Filter.atTop Filter.atBot := by
      have hk : 0 < GUN_SWAY_SMOOTHING := by norm_num [GUN_SWAY_SMOOTHING]
      have h1 : Filter.Tendsto (fun T : ℝ => GUN_SWAY_SMOOTHING * T)
          Filter.atTop Filter.atTop :=
        Filter.Tendsto.const_mul_atTop hk Filter.tendsto_id
      have h2 : Filter.Tendsto (fun T : ℝ => -(GUN_SWAY_SMOOTHING * T))
          Filter.atTop Filter.atBot := Filter.tendsto_neg_atTop_atBot.comp h1
      simpa [neg_mul] using h2
    exact Real.tendsto_exp_atBot.comp hlin
  have hone : ∀ (a b : ℝ),
      Filter.Tendsto (fun T : ℝ => a + (b - a) * Real.exp (-GUN_SWAY_SMOOTHING * T))
        Filter.atTop (nhds a) := by
    intro a b
    have h := Filter.Tendsto.add (tendsto_const_nhds (x := a))
      (Filter.Tendsto.const_mul (b - a) hexp0)
    simpa using h
  refine ⟨fun v => ?_, ?_, ?_, ?_⟩
  · refine Vec3.ext ?_ ?_ ?_ <;> simp [swayTarget, Vec3.smul] <;> ring
  · intro t d1 d2 c
    have he : Real.exp (-GUN_SWAY_SMOOTHING * d1) * Real.exp (-GUN_SWAY_SMOOTHING * d2)
        = Real.exp (-GUN_SWAY_SMOOTHING * (d1 + d2)) := by
      rw [← Real.exp_add]
      ring_nf
    refine Vec3.ext ?_ ?_ ?_
    · simp only [swayStep, lerpScalar]
      linear_combination (c.x - t.x) * he
    · simp only [swayStep, lerpScalar]
      linear_combination (c.y - t.y) * he
    · simp only [swayStep, lerpScalar]
      linear_combination (c.z - t.z) * he
  · intro t c ds
    exact swayRun_closed t ds c
  · intro v c
    constructor
    · have hx : (fun T : ℝ => (swayRun (swayTarget v) c [T]).x)
          = fun T : ℝ => (swayTarget v).x
              + (c.x - (swayTarget v).x) * Real.exp (-GUN_SWAY_SMOOTHING * T) := by
        funext T
        rw [swayRun_closed]
        simp
      rw [hx]
      exact hone _ _
    · have hz : (fun T : ℝ => (swayRun (swayTarget v) c [T]).z)
          = fun T : ℝ => (swayTarget v).z
              + (c.z - (swayTarget v).z) * Real.exp (-GUN_SWAY_SMOOTHING * T) := by
        funext T
        rw [swayRun_closed]
        simp
      rw [hz]
      exact hone _ _

/-! ## Projectile lifetime (PlayerController.tsx lines 28, 100-102, 324-342) -/

/-- `PROJECTILE_LIFETIME_MS` (line 28). -/
def PROJECTILE_LIFETIME_MS : ℚ := 2400

/-- Mirror of a `ProjectileInstance` record (lines 40-44). -/
structure ProjectileInstance where
  id : Nat
  origin : ℚ × ℚ × ℚ
  direction : ℚ × ℚ × ℚ
deriving DecidableEq, Repr

/-- `handleProjectileExpire` (lines 100-102): drops exactly the record with
the expiring id from the active collection. -/
def handleProjectileExpire (pid : Nat) (prev : List ProjectileInstance) :
    List ProjectileInstance :=
  prev.filter (fun projectile => projectile.id ≠ pid)

/-- Idealized scheduler for the `setTimeout` of line 340: the expiry
callback of a projectile spawned at `t0` runs at
`t0 + PROJECTILE_LIFETIME_MS`, unconditionally (no collision-based removal
exists in the source); the projectile is in the active collection from its
spawn until that moment. -/
def projectilePresent (t0 now : ℚ) : Bool :=
  decide (t0 ≤ now) && decide (now < t0 + PROJECTILE_LIFETIME_MS)

/-- C7: a projectile spawned at t = 0 is still present at 2399 ms, has been
removed at 2401 ms, is present at every time before its 2400 ms lifetime
elapses, and the expiry handler removes exactly the record with the
expiring id. -/
theorem projectile_lifetime :
    projectilePresent 0 2399 = true
    ∧ projectilePresent 0 2401 = false
    ∧ (∀ t : ℚ, 0 ≤ t → t < PROJECTILE_LIFETIME_MS → projectilePresent 0 t = true)
    ∧ (∀ (pid : Nat) (prev : List ProjectileInstance) (q : ProjectileInstance),
        q ∈ handleProjectileExpire pid prev ↔ (q ∈ prev ∧ q.id ≠ pid)) := by
  refine ⟨?_, ?_, ?_, ?_⟩
  · simp only [projectilePresent, PROJECTILE_LIFETIME_MS, Bool.and_eq_true,
      decide_eq_true_eq]
    norm_num
  · rw [Bool.eq_false_iff]
    simp only [ne_eq, projectilePresent, PROJECTILE_LIFETIME_MS, Bool.and_eq_true,
      decide_eq_true_eq, not_and]
    intro _
    norm_num
  · intro t h0 h1
    simp only [projectilePresent, Bool.and_eq_true, decide_eq_true_eq]
    exact ⟨h0, by linarith⟩
  · intro pid prev q
    simp [handleProjectileExpire, List.mem_filter]

/-- Witness for `projectile_lifetime`: presence at the concrete time
t = 1000 ms. -/
theorem projectile_lifetime_witness : projectilePresent 0 1000 = true :=
  projectile_lifetime.2.2.1 1000 (by norm_num) (by norm_num [PROJECTILE_LIFETIME_MS])

/-! ## Scenery placement (SceneryCluster.tsx lines 34-46, 62-113) -/

/-- Width of the 32-bit coercion that JavaScript bit operations apply. -/
def U32 : Nat := 4294967296

/-- One draw of the `mulberry32` closure (lines 36-46).  The closure state
and every intermediate are 32-bit words, represented as naturals mod `U32`
(JS coerces the operands of `^`, `|`, `>>>` and `Math.imul` to 32 bits);
returns the updated state and the value in `[0, 1)`. -/
def mulberry32Next (state : Nat) : Nat × ℚ :=
  let s := (state + 0x6d2b79f5) % U32
  let t1 := (Nat.xor s (Nat.shiftRight s 15)) * (Nat.lor s 1) % U32
  let t2 := Nat.xor t1
    ((t1 + (Nat.xor t1 (Nat.shiftRight t1 7)) * (Nat.lor t1 61) % U32) % U32)
  (s, ((Nat.xor t2 (Nat.shiftRight t2 14) : ℕ) : ℚ) / 4294967296)

/-- The generator state after `n` further draws. -/
def stateIter (st : Nat) : Nat → Nat
  | 0 => st
  | n + 1 => (mulberry32Next (stateIter st n)).1

/-- Value of draw `n` (0-based) of the generator seeded with `seed >>> 0`. -/
def mulberryDraw (seed : Nat) (n : Nat) : ℚ :=
  (mulberry32Next (stateIter (seed % U32) n)).2

/-- `TAU` (line 34). -/
noncomputable def TAU : ℝ := Real.pi * 2

/-- One placed instance: position and yaw-only rotation. -/
structure Placement where
  posX : ℝ
  posY : ℝ
  posZ : ℝ
  yaw : ℝ

/-- One loop iteration (lines 86-113): consumes exactly three draws (angle,
distance, yaw), in that order, and computes the instance pose.  The downward
raycast against the scene's fixed ground geometry (lines 95-103) is
abstracted by the height function `ground`; a scene without ground meshes or
intersections corresponds to `ground = fun _ _ => 0`, the source's default
`positionY`. -/
noncomputable def placeOne (ground : ℝ → ℝ → ℝ) (cx cz radius : ℝ) (st : Nat) :
    Placement × Nat :=
  let d1 := mulberry32Next st
  let d2 := mulberry32Next d1.1
  let d3 := mulberry32Next d2.1
  let angle := (d1.2 : ℝ) * TAU
  let distance := Real.sqrt (d2.2 : ℝ) * radius
  let yaw := (d3.2 : ℝ) * TAU
  let positionX := cx + Real.cos angle * distance
  let positionZ := cz + Real.sin angle * distance
  (⟨positionX, ground positionX positionZ, positionZ, yaw⟩, d3.1)

/-- The placement loop over the instance count, threading the generator
state. -/
noncomputable def placementsAux (ground : ℝ → ℝ → ℝ) (cx cz radius : ℝ) :
    Nat → Nat → List Placement
  | _, 0 => []
  | st, n + 1 =>
      (placeOne ground cx cz radius st).1 ::
        placementsAux ground cx cz radius (placeOne ground cx cz radius st).2 n

/-- `Math.max(0, Math.floor(count))` (line 62). -/
def normalizedCount (count : ℚ) : Nat := (max 0 ⌊count⌋).toNat

/-- `Math.max(0, radius)` (line 63). -/
noncomputable def clampedRadius (radius : ℝ) : ℝ := max 0 radius

/-- The placement sequence computed by `SceneryCluster` (lines 65-113) for a
fixed scene, seed and parameters. -/
noncomputable def sceneryPlacements (ground : ℝ → ℝ → ℝ) (seed : Nat) (count : ℚ)
    (radius cx cz : ℝ) : List Placement :=
  placementsAux ground cx cz (clampedRadius radius) (seed % U32) (normalizedCount count)

theorem stateIter_add (st : Nat) (a : Nat) : ∀ b : Nat,
    stateIter st (a + b) = stateIter (stateIter st a) b := by
  intro b
  induction b with
  | zero => rfl
  | succ b ih => rw [← Nat.add_assoc, stateIter, stateIter, ih]

theorem placementsAux_length (ground : ℝ → ℝ → ℝ) (cx cz radius : ℝ) :
    ∀ (n : Nat) (st : Nat), (placementsAux ground cx cz radius st n).length = n := by
  intro n
  induction n with
  | zero => intro st; rfl
  | succ n ih =>
      intro st
      rw [placementsAux, List.length_cons, ih]

theorem placementsAux_get (ground : ℝ → ℝ → ℝ) (cx cz radius : ℝ) :
    ∀ (i n : Nat) (st : Nat), i < n →
      (placementsAux ground cx cz radius st n).get? i
        = some (placeOne ground cx cz radius (stateIter st (3 * i))).1 := by
  intro i
  induction i with
  | zero =>
      intro n st hn
      cases n with
      | zero => exact absurd hn (lt_irrefl 0)
      | succ n => rfl
  | succ i ih =>
      intro n st hn
      cases n with
      | zero => exact absurd hn (Nat.not_lt_zero _)
      | succ n =>
          have hunfold : placementsAux ground cx cz radius st (n + 1)
              = (placeOne ground cx cz radius st).1 ::
                  placementsAux ground cx cz radius
                    (placeOne ground cx cz radius st).2 n := by
            rw [placementsAux]
          rw [hunfold, List.get?_cons_succ, ih n _ (Nat.lt_of_succ_lt_succ hn)]
          have hst : (placeOne ground cx cz radius st).2 = stateIter st 3 := rfl
          rw [hst, ← stateIter_add]
          have harith : 3 + 3 * i = 3 * (i + 1) := by omega
          rw [harith]

/-- C9: the placement computation is a pure function — equal scene, seed,
count, radius and center give identical placement sequences; it never fails:
the output length always equals the floored-and-clamped count, for any
radius; each instance consumes exactly three generator draws in order, the
i-th instance being computed from the generator state after `3·i` draws, and
`placeOne` advancing the state by exactly 3; and a count that is ≤ 0 after
flooring yields the empty sequence. -/
theorem scenery_placement_deterministic :
    (∀ (g1 g2 : ℝ → ℝ → ℝ) (s1 s2 : Nat) (c1 c2 : ℚ) (r1 r2 x1 x2 z1 z2 : ℝ),
        g1 = g2 → s1 = s2 → c1 = c2 → r1 = r2 → x1 = x2 → z1 = z2 →
          sceneryPlacements g1 s1 c1 r1 x1 z1 = sceneryPlacements g2 s2 c2 r2 x2 z2)
    ∧ (∀ (g : ℝ → ℝ → ℝ) (seed : Nat) (count : ℚ) (radius cx cz : ℝ),
        (sceneryPlacements g seed count radius cx cz).length = normalizedCount count)
    ∧ (∀ (g : ℝ → ℝ → ℝ) (seed : Nat) (count : ℚ) (radius cx cz : ℝ) (i : Nat),
        i < normalizedCount count →
          (sceneryPlacements g seed count radius cx cz).get? i
            = some (placeOne g cx cz (clampedRadius radius)
                (stateIter (seed % U32) (3 * i))).1)
    ∧ (∀ (g : ℝ → ℝ → ℝ) (cx cz radius : ℝ) (st : Nat),
        (placeOne g cx cz radius st).2 = stateIter st 3)
    ∧ (∀ (g : ℝ → ℝ → ℝ) (seed : Nat) (count : ℚ) (radius cx cz : ℝ),
        count ≤ 0 → sceneryPlacements g seed count radius cx cz = []) := by
  refine ⟨?_, ?_, ?_, ?_, ?_⟩
  · intro g1 g2 s1 s2 c1 c2 r1 r2 x1 x2 z1 z2 hg hs hc hr hx hz
    rw [hg, hs, hc, hr, hx, hz]
  · intro g seed count radius cx cz
    exact placementsAux_length g cx cz (clampedRadius radius) _ _
  · intro g seed count radius cx cz i hi
    exact placementsAux_get g cx cz (clampedRadius radius) i _ _ hi
  · intro g cx cz radius st
    rfl
  · intro g seed count radius cx cz hc
    have hfloor : ⌊count⌋ ≤ 0 := by
      calc ⌊count⌋ ≤ ⌊(0 : ℚ)⌋ := Int.floor_le_floor hc
        _ = 0 := Int.floor_zero
    have hzero : normalizedCount count = 0 := by
      unfold normalizedCount
      rw [max_eq_left hfloor]
      rfl
    unfold sceneryPlacements
    rw [hzero]
    rfl

/-- The absent-ground height function (`positionY` defaults to 0). -/
noncomputable def groundZero : ℝ → ℝ → ℝ := fun _ _ => 0

/-- Witness for `scenery_placement_deterministic` at concrete parameters:
seed 1, count 2, radius 5, center (0,0), no ground geometry. -/
theorem scenery_placement_deterministic_witness :
    sceneryPlacements groundZero 1 2 5 0 0 = sceneryPlacements groundZero 1 2 5 0 0
    ∧ (sceneryPlacements groundZero 1 2 5 0 0).length = normalizedCount 2
    ∧ (sceneryPlacements groundZero 1 2 5 0 0).get? 1
        = some (placeOne groundZero 0 0 (clampedRadius 5) (stateIter (1 % U32) (3 * 1))).1
    ∧ sceneryPlacements groundZero 1 (-3) 5 0 0 = [] :=
  ⟨scenery_placement_deterministic.1 groundZero groundZero 1 1 2 2 5 5 0 0 0 0
      rfl rfl rfl rfl rfl rfl,
   scenery_placement_deterministic.2.1 groundZero 1 2 5 0 0,
   scenery_placement_deterministic.2.2.1 groundZero 1 2 5 0 0 1
      (by norm_num [normalizedCount]),
   scenery_placement_deterministic.2.2.2.2 groundZero 1 (-3) 5 0 0 (by norm_num)⟩

end FPS
